import Mathlib

/-!
# Verification of the anvelopemoto.eu tyre-listing scraper

A shallow embedding of `src/tyre_scraper.py` and proofs about it.

Modelling conventions:
* HTML documents parsed by BeautifulSoup become a rose tree `Node` (a mutual
  inductive with `NodeList` so that all traversals are structural and
  kernel-computable).
* Python `float` values produced by `parse_ron` are represented exactly by
  `PyFloat` (an integer numerator over a power-of-ten denominator); every
  value the scraper handles is a short decimal, where IEEE doubles order and
  compare exactly like the rationals they denote.  Ordering and truthiness
  are the semantic ones (cross-multiplication, zero numerator).
* `requests`/network effects become an explicit oracle `fetch : String →
  Option Node` (`none` = request failure); `datetime.now()` becomes the
  explicit `now : String` argument.
* All string scanning is done on `List Char` with structural recursion so
  that concrete runs reduce inside the kernel; `String` is unpacked with
  `.data` at the boundary.  Python `str` operations used by the scraper
  (`in`, `.strip()`, `.lower()`, `.startswith`, `.replace` on single
  characters) are given faithful ASCII models below.
-/

/-! ## Character and string primitives -/

/-- ASCII digit test; model of `\d` as used by the scraper's regexes
(all scraped text is ASCII). -/
def isDigitCh (c : Char) : Bool := 48 ≤ c.toNat && c.toNat ≤ 57

/-- Whitespace test; model of Python `\s` / `str.strip` whitespace for the
ASCII range (space, tab, newline, carriage return, vertical tab, form feed). -/
def isSpaceCh (c : Char) : Bool :=
  c == ' ' || c == '\t' || c == '\n' || c == '\r' || c.toNat == 11 || c.toNat == 12

/-- Strip whitespace from both ends (Python `str.strip()`), on char lists. -/
def trimWs (cs : List Char) : List Char :=
  ((cs.dropWhile isSpaceCh).reverse.dropWhile isSpaceCh).reverse

/-- `needle` occurs as a contiguous sublist of `hay`
(Python's `needle in hay` on strings). -/
def subOccurs (needle : List Char) : List Char → Bool
  | [] => needle.isEmpty
  | c :: rest => needle.isPrefixOf (c :: rest) || subOccurs needle rest

/-- Python `needle in hay` for strings. -/
def strContains (hay needle : String) : Bool := subOccurs needle.data hay.data

/-- Python `hay.startswith(pre)`. -/
def strStarts (hay pre : String) : Bool := pre.data.isPrefixOf hay.data

/-- ASCII lower-casing of one character (Python `str.lower` restricted to
the ASCII range, which covers every phrase the scraper matches). -/
def lowerCh (c : Char) : Char :=
  if 65 ≤ c.toNat && c.toNat ≤ 90 then Char.ofNat (c.toNat + 32) else c

/-- ASCII model of Python `str.lower()`. -/
def strLower (s : String) : String := String.mk (s.data.map lowerCh)

/-- Python `str.strip()` on `String`. -/
def strStrip (s : String) : String := String.mk (trimWs s.data)

/-- Decimal value of a digit string (most significant first). -/
def digitsToNat (cs : List Char) : Nat := cs.foldl (fun a c => 10 * a + (c.toNat - 48)) 0

/-! ## Python float values

`PyFloat` is the exact value `num / 10 ^ exp`.  The scraper only ever
compares, sorts and truth-tests these values, so we carry the semantic
order `PyFloat.le` (cross multiplication) and zero test (`num = 0`). -/

/-- Exact decimal model of a Python float produced by `float()` on a
decimal literal: the value `num / 10 ^ exp`. -/
structure PyFloat where
  num : Int
  exp : Nat
deriving Repr, DecidableEq

/-- Semantic order on `PyFloat` (the order of the denoted rationals). -/
def PyFloat.le (a b : PyFloat) : Prop :=
  a.num * (10 : Int) ^ b.exp ≤ b.num * (10 : Int) ^ a.exp

instance (a b : PyFloat) : Decidable (PyFloat.le a b) := by
  unfold PyFloat.le; infer_instance

/-- The rational a `PyFloat` denotes (used to connect concrete outputs to
the spec's decimal literals). -/
def PyFloat.val (a : PyFloat) : Rat := Rat.divInt a.num ((10 : Int) ^ a.exp)

/-- Model of Python `float(s)` on decimal literals, on char lists already
stripped of whitespace and sign: all characters must be digits or a single
`.`, with at least one digit (`"67.01"`, `"1."`, `".5"`; exponent, `inf`,
`nan` and digit-separating underscores never arise in this program's
inputs and are out of the modelled fragment, mapped to `none`). -/
def pyFloatCore (cs : List Char) : Option PyFloat :=
  if cs.all (fun c => isDigitCh c || c == '.') && cs.count '.' ≤ 1 && cs.any isDigitCh then
    let ip := cs.takeWhile (fun c => c != '.')
    let fp := (cs.dropWhile (fun c => c != '.')).drop 1
    some ⟨((digitsToNat ip * 10 ^ fp.length + digitsToNat fp : Nat) : Int), fp.length⟩
  else none

/-- Model of Python `float(s)`: strip whitespace, take an optional sign,
then parse a decimal literal; `none` models `ValueError`. -/
def pyFloatOf (cs : List Char) : Option PyFloat :=
  match trimWs cs with
  | '+' :: r => pyFloatCore r
  | '-' :: r => (pyFloatCore r).map (fun x => ⟨-x.num, x.exp⟩)
  | r => pyFloatCore r

/-! ## The scraper's helpers (`src/tyre_scraper.py`) -/

/-- `BASE_URL` from the source. -/
def BASE_URL : String := "https://www.anvelopemoto.eu"

/-- `SOURCE` from the source. -/
def SOURCE : String := "anvelopemoto.eu"

/-- `parse_ron`: `float(s.replace(".", "").replace(",", "."))`, `None` on
failure.  Single-character `str.replace` is the per-character filter/map
below. -/
def parse_ron (s : String) : Option PyFloat :=
  pyFloatOf ((s.data.filter (fun c => c != '.')).map (fun c => if c == ',' then '.' else c))

/-- `fmt`: `f"{s} lei" if s else ""`. -/
def fmt (s : String) : String := if s != "" then s ++ " lei" else ""

/-! ## PRICE_RE

`PRICE_RE = re.compile(r"([\d]{1,4}(?:\.\d{3})*,\d{2})\s*lei")` and
`PRICE_RE.findall`, with Python's leftmost, greedy, backtracking,
non-overlapping semantics. -/

/-- Number of consecutive `.ddd` groups at the head of the list (the greedy
match of `(?:\.\d{3})*`). -/
def dotGroups : List Char → Nat
  | '.' :: a :: b :: c :: rest =>
      if isDigitCh a && isDigitCh b && isDigitCh c then 1 + dotGroups rest else 0
  | _ => 0

/-- Match `,\d{2}\s*lei` at the head of the list, returning the number of
characters consumed. -/
def priceTail (cs : List Char) : Option Nat :=
  match cs with
  | ',' :: a :: b :: rest =>
      if isDigitCh a && isDigitCh b then
        let ws := (rest.takeWhile isSpaceCh).length
        if ['l', 'e', 'i'].isPrefixOf (rest.drop ws) then some (3 + ws + 3) else none
      else none
  | _ => none

/-- Try the match of `PRICE_RE` at this position with `k` leading digits and
`j` thousands groups; returns the captured group and total match length. -/
def priceTry (cs : List Char) (k j : Nat) : Option (List Char × Nat) :=
  match priceTail (cs.drop (k + 4 * j)) with
  | some tl => some (cs.take (k + 4 * j + 3), k + 4 * j + tl)
  | none => none

/-- Backtrack over the star count `j`, greedily from `j` down to `0`. -/
def priceTryJs (cs : List Char) (k : Nat) : Nat → Option (List Char × Nat)
  | 0 => priceTry cs k 0
  | j + 1 =>
      match priceTry cs k (j + 1) with
      | some r => some r
      | none => priceTryJs cs k j

/-- Backtrack over the greedy `[\d]{1,4}` count `k`, from `k` down to `1`. -/
def priceTryKs (cs : List Char) : Nat → Option (List Char × Nat)
  | 0 => none
  | k + 1 =>
      if (cs.take (k + 1)).length = k + 1 && (cs.take (k + 1)).all isDigitCh then
        match priceTryJs cs (k + 1) (dotGroups (cs.drop (k + 1))) with
        | some r => some r
        | none => priceTryKs cs k
      else priceTryKs cs k

/-- Match `PRICE_RE` anchored at the head of the list. -/
def priceMatchAt (cs : List Char) : Option (List Char × Nat) := priceTryKs cs 4

/-- Scan for non-overlapping matches left to right (`re.findall`), with
fuel bounded by the remaining length. -/
def priceFindGo : Nat → List Char → List String
  | 0, _ => []
  | _, [] => []
  | fuel + 1, c :: rest =>
      match priceMatchAt (c :: rest) with
      | some (grp, len) => String.mk grp :: priceFindGo fuel (List.drop (len - 1) rest)
      | none => priceFindGo fuel rest

/-- `PRICE_RE.findall(s)`: the list of captured price tokens. -/
def priceTokens (s : String) : List String := priceFindGo s.data.length s.data

/-! ## Other regexes of `parse_listing_page` -/

/-- Match `Reducere\s+(\d+%)` anchored at the head; returns capture 1. -/
def reducereAt (cs : List Char) : Option String :=
  if "Reducere".data.isPrefixOf cs then
    let r1 := cs.drop 8
    let ws := (r1.takeWhile isSpaceCh).length
    if 0 < ws then
      let r2 := r1.drop ws
      let ds := r2.takeWhile isDigitCh
      if 0 < ds.length && (r2.drop ds.length).head? = some '%' then
        some (String.mk (ds ++ ['%']))
      else none
    else none
  else none

/-- `re.search(r"Reducere\s+(\d+%)", _)`: leftmost match's capture. -/
def reducereSearch : List Char → Option String
  | [] => none
  | c :: rest =>
      match reducereAt (c :: rest) with
      | some g => some g
      | none => reducereSearch rest

/-- `discount = f"Reducere {m.group(1)}" if m else ""`. -/
def discountOf (t : String) : String :=
  match reducereSearch t.data with
  | some pct => "Reducere " ++ pct
  | none => ""

/-- Match `Cod produs:\s*(\S+)` anchored at the head; returns capture 1. -/
def codAt (cs : List Char) : Option String :=
  if "Cod produs:".data.isPrefixOf cs then
    let r1 := (cs.drop 11).dropWhile isSpaceCh
    let ds := r1.takeWhile (fun c => !(isSpaceCh c))
    if 0 < ds.length then some (String.mk ds) else none
  else none

/-- `re.search(r"Cod produs:\s*(\S+)", _)`: leftmost match's capture. -/
def codSearch : List Char → Option String
  | [] => none
  | c :: rest =>
      match codAt (c :: rest) with
      | some g => some g
      | none => codSearch rest

/-- `product_code = m.group(1) if m else ""`. -/
def productCodeOf (t : String) : String :=
  match codSearch t.data with
  | some cod => cod
  | none => ""

/-! ## HTML documents

BeautifulSoup's parsed document becomes a rose tree.  `NodeList` is a
bespoke list so that all traversals are mutual structural recursions the
kernel can evaluate. -/

mutual

/-- A parsed HTML node: a text node, or an element with a tag name, an
attribute list and children.  The whole document is the root `Node`
(BeautifulSoup's `[document]` object). -/
inductive Node where
  | text : String → Node
  | elem : String → List (String × String) → NodeList → Node

/-- Children of an element. -/
inductive NodeList where
  | nil : NodeList
  | cons : Node → NodeList → NodeList

end

/-- Convert an ordinary list of nodes (convenient for fixtures). -/
def nodesOf : List Node → NodeList
  | [] => .nil
  | n :: ns => .cons n (nodesOf ns)

/-- Tag name of a node (`Tag.name`); text nodes have none. -/
def tagOf : Node → String
  | .text _ => ""
  | .elem t _ _ => t

/-- Attribute lookup, `a.get(name)`. -/
def getAttr (n : Node) (name : String) : Option String :=
  match n with
  | .text _ => none
  | .elem _ attrs _ => (attrs.find? (fun p => p.1 == name)).map (fun p => p.2)

/-- `a.get(name, "")`. -/
def attrD (n : Node) (name : String) : String := (getAttr n name).getD ""

mutual

/-- All descendant text-node strings, in document order
(BeautifulSoup's `strings`). -/
def nodeTexts : Node → List String
  | .text s => [s]
  | .elem _ _ cs => listTexts cs

/-- Text-node strings of a node list. -/
def listTexts : NodeList → List String
  | .nil => []
  | .cons n ns => nodeTexts n ++ listTexts ns

end

/-- `get_text(" ", strip=True)`: each string stripped, empties dropped,
joined with one space. -/
def getTextSep (n : Node) : String :=
  String.mk (List.intercalate [' ']
    (((nodeTexts n).map (fun s => trimWs s.data)).filter (fun cs => !cs.isEmpty)))

/-- `get_text(strip=True)`: each string stripped, empties dropped,
concatenated. -/
def getTextCat (n : Node) : String :=
  String.mk ((((nodeTexts n).map (fun s => trimWs s.data)).filter (fun cs => !cs.isEmpty)).flatten)

mutual

/-- All `<a>` elements in document order, each with its ancestor chain
(nearest first, ending at the document root) — the anchors `soup.select`
ranges over, plus the data `anchor.parents` walks. -/
def nodeAnchors : Node → List Node → List (Node × List Node)
  | .text _, _ => []
  | .elem tag attrs cs, ancs =>
      (if tag == "a" then [(Node.elem tag attrs cs, ancs)] else [])
        ++ listAnchors cs (Node.elem tag attrs cs :: ancs)

/-- Anchors of a node list given the ancestor chain of its members. -/
def listAnchors : NodeList → List Node → List (Node × List Node)
  | .nil, _ => []
  | .cons n ns, ancs => nodeAnchors n ancs ++ listAnchors ns ancs

end

/-- Anchors of the whole document with their ancestor chains. -/
def docAnchors (doc : Node) : List (Node × List Node) := nodeAnchors doc []

/-- `soup.select("a[href]")`: anchors carrying an `href` attribute. -/
def hrefAnchors (doc : Node) : List Node :=
  ((docAnchors doc).map (fun p => p.1)).filter (fun a => (getAttr a "href").isSome)

/-! ## `parse_listing_page` -/

/-- The href-substring denylist of `parse_listing_page`, verbatim. -/
def denylist : List String :=
  ["dispatch=", "/blog", "profiles", "compare", "wishlist",
   "locatia", "intrebari", "garantie", "pages.view", "fan-zone",
   "/accesorii", "/camere-de-aer", "/consumabile", "/rim-band",
   "/mousse", "/tubliss", "/rim-lock", "/uleiuri", "/transmisie",
   "/diverse", "/montaj", "/contragreutati", "/valve", "/petice",
   "/alligator", "/avon", "/bridgestone/", "/cheng-shin", "/continental",
   "/cst", "/dunlop/", "/duro", "/eurogrip", "/heidenau/",
   "/irc", "/kenda", "/maxxis", "/mefo", "/metzeler/", "/michelin/",
   "/mitas/", "/motorex", "/motul", "/pirelli/", "/plews/",
   "/schwalbe", "/shinko/", "/vee-rubber", "/vipal",
   "/anvelope-moto/", "/lichidari-de-stoc/", "/ek/", "/duro/",
   "/goldspeed/", "/heidenau-racing/", "/hiflo/", "/hofmann/",
   "/hutchinson/", "/jmp/", "/kn/", "/lampa/"]

/-- The candidate-product test of `parse_listing_page` on a stripped title:
`href.startswith("https://www.anvelopemoto.eu/") and title and
len(title) > 8 and not any(x in href for x in denylist)`. -/
def isCandidateLink (href title : String) : Bool :=
  strStarts href "https://www.anvelopemoto.eu/"
    && title != ""
    && decide (8 < title.length)
    && !(denylist.any (fun x => strContains href x))

/-- One anchor's contribution to `product_links`: `(href, title, anchor)`
(we keep the ancestor chain in place of the live anchor object, since that
is all the later code uses). -/
def candOf (p : Node × List Node) : Option (String × String × List Node) :=
  if (getAttr p.1 "title").isSome && (getAttr p.1 "href").isSome then
    if isCandidateLink (attrD p.1 "href") (strStrip (attrD p.1 "title")) then
      some (attrD p.1 "href", strStrip (attrD p.1 "title"), p.2)
    else none
  else none

/-- `product_links`: candidates of `soup.select("a[title][href]")` in
document order. -/
def candTriples (doc : Node) : List (String × String × List Node) :=
  (docAnchors doc).filterMap candOf

/-- The `seen_urls` deduplication: keep the first candidate for each href. -/
def dedupByUrl (seen : List String) : List (String × String × List Node) → List (String × String × List Node)
  | [] => []
  | c :: rest =>
      if c.1 ∈ seen then dedupByUrl seen rest
      else c :: dedupByUrl (c.1 :: seen) rest

/-- The structural boundary tags of the upward walk. -/
def boundaryTags : List String := ["body", "html", "main", "nav", "header", "footer"]

/-- The upward ancestor walk: the first ancestor below any structural
boundary whose text contains `"lei"` and is under 3000 characters. -/
def resolveContainer : List Node → Option Node
  | [] => none
  | p :: rest =>
      if boundaryTags.any (fun t => t == tagOf p) then none
      else
        if strContains (getTextSep p) "lei" && decide ((getTextSep p).length < 3000) then some p
        else resolveContainer rest

/-- `raw_text = container.get_text(" ", strip=True) if container else ""`. -/
def rawTextOf (ancs : List Node) : String :=
  match resolveContainer ancs with
  | some c => getTextSep c
  | none => ""

/-- One product record (the dict the scraper emits). -/
structure Record where
  source : String
  name : String
  price : String
  original_price : String
  price_value : Option PyFloat
  currency : String
  discount : String
  availability : String
  in_stock : Bool
  product_code : String
  shop : String
  url : String
  scraped_at : String
deriving Repr, DecidableEq

/-- The sort key of `sorted(numeric, key=lambda x: x[1])`: compare token
pairs by their parsed value.  Python's `sorted` is the stable ascending
sort, which on lists is exactly `List.insertionSort` of this relation. -/
def leByVal (a b : String × PyFloat) : Prop := PyFloat.le a.2 b.2

instance (a b : String × PyFloat) : Decidable (leByVal a b) := by
  unfold leByVal; infer_instance

/-- The truthiness filter over parsed tokens:
`[(p, parse_ron(p)) for p in price_matches if parse_ron(p)]`
(`None` and `0.0` are falsy). -/
def priceNumeric (ms : List String) : List (String × PyFloat) :=
  ms.filterMap (fun p =>
    match parse_ron p with
    | some v => if v.num ≠ 0 then some (p, v) else none
    | none => none)

/-- The record built for one surviving candidate from its block text
(the loop body of `parse_listing_page`). -/
def extractRecord (href title raw_text now : String) : Record :=
  let numeric_sorted := (priceNumeric (priceTokens raw_text)).insertionSort leByVal
  let sale_price_str := ((numeric_sorted.head?).map (fun p => p.1)).getD ""
  let price_value := (numeric_sorted.head?).map (fun p => p.2)
  let orig_price_str :=
    if 1 < numeric_sorted.length then ((numeric_sorted.getLast?).map (fun p => p.1)).getD ""
    else ""
  let avail_text := strLower raw_text
  let stock :=
    if strContains avail_text "momentan indisponibil" then (false, "Out of stock")
    else if strContains avail_text "stoc bucuresti" then (true, "In stock (Bucharest)")
    else if strContains avail_text "in stoc furnizor" then (true, "In stock (supplier)")
    else if strContains avail_text "la comanda" then (true, "Order only")
    else (true, "Unknown")
  { source := SOURCE
    name := title
    price := fmt sale_price_str
    original_price := fmt orig_price_str
    price_value := price_value
    currency := "RON (lei)"
    discount := discountOf raw_text
    availability := stock.2
    in_stock := stock.1
    product_code := productCodeOf raw_text
    shop := SOURCE
    url := href
    scraped_at := now }

/-- `parse_listing_page(soup)`: candidate anchors, deduplicated by URL,
each resolved to a content block and turned into a record.  `now` is the
`datetime.now().isoformat()` timestamp. -/
def parse_listing_page (soup : Node) (now : String) : List Record :=
  (dedupByUrl [] (candTriples soup)).map
    (fun c => extractRecord c.1 c.2.1 (rawTextOf c.2.2) now)

/-! ## Pagination (`get_all_page_urls`, `get_next_page_url`) -/

/-- `re.search(r"/page-(\d+)/?$", href)`: because of the `$` anchor the
match, when it exists, captures the maximal trailing digit run (before at
most one final `/`), provided it is preceded by the literal `/page-`. -/
def pageNumOf (href : String) : Option Nat :=
  let cs :=
    match href.data.getLast? with
    | some '/' => href.data.dropLast
    | _ => href.data
  let ds := (cs.reverse.takeWhile isDigitCh).reverse
  let stem := cs.take (cs.length - ds.length)
  if !ds.isEmpty && "/page-".data.isSuffixOf stem then some (digitsToNat ds) else none

/-- `re.match(r"(\d+)\s*-\s*(\d+)", text)`: a leading digit run, optional
whitespace, `-`, optional whitespace, a digit run; trailing text ignored. -/
def rangeOf (s : String) : Option (Nat × Nat) :=
  let d1 := s.data.takeWhile isDigitCh
  if d1.isEmpty then none
  else
    match (s.data.drop d1.length).dropWhile isSpaceCh with
    | '-' :: r2 =>
        let d2 := (r2.dropWhile isSpaceCh).takeWhile isDigitCh
        if d2.isEmpty then none else some (digitsToNat d1, digitsToNat d2)
    | _ => none

/-- `range(int(a), int(b) + 1)`. -/
def rangeList (lo hi : Nat) : List Nat := List.range' lo (hi + 1 - lo)

/-- The page numbers fed into the `page_numbers` set, in scan order: one
per `/page-N/` link, plus the expansion of every `"a - b"` range label
found on such a link (both loops of `get_all_page_urls`). -/
def discoveredPageNums (doc : Node) : List Nat :=
  (hrefAnchors doc).filterMap (fun a => pageNumOf (attrD a "href"))
    ++ (hrefAnchors doc).flatMap (fun a =>
        match pageNumOf (attrD a "href") with
        | some _ =>
            match rangeOf (getTextCat a) with
            | some r => rangeList r.1 r.2
            | none => []
        | none => [])

/-- `sorted(page_numbers)`: the distinct discovered numbers, ascending. -/
def sortedPageNums (doc : Node) : List Nat :=
  ((discoveredPageNums doc).dedup).insertionSort (fun a b => a ≤ b)

/-- Python `str.rstrip("/")`: drop every trailing slash. -/
def rstripSlash (s : String) : String :=
  String.mk ((s.data.reverse.dropWhile (fun c => c == '/')).reverse)

/-- `f"{base}/page-{n}/"` after `base = base_category_url.rstrip("/")`. -/
def mkPageUrl (base : String) (n : Nat) : String :=
  rstripSlash base ++ "/page-" ++ toString n ++ "/"

/-- `get_all_page_urls(soup, base_category_url)`. -/
def get_all_page_urls (soup : Node) (base_category_url : String) : List String :=
  base_category_url :: (sortedPageNums soup).map (mkPageUrl base_category_url)

/-- `urljoin(BASE_URL, href)` for the path-like hrefs this site emits
(scheme-relative, root-relative or bare relative); query-only and
fragment-only references do not occur on this site's next links. -/
def urljoinBase (href : String) : String :=
  if strStarts href "//" then "https:" ++ href
  else if strStarts href "/" then BASE_URL ++ href
  else BASE_URL ++ "/" ++ href

/-- `get_next_page_url(soup)`: the first link whose text mentions the
localized next-page label. -/
def get_next_page_url (soup : Node) : Option String :=
  (hrefAnchors soup).findSome? (fun a =>
    if strContains (getTextCat a) "Urmatorul"
        || strContains (strLower (getTextCat a)) "urmatorul" then
      some (if strStarts (attrD a "href") "http" then attrD a "href"
            else urljoinBase (attrD a "href"))
    else none)

/-! ## Crawl orchestration (`scrape_category`, `scrape_search`)

Network access is the oracle `fetch : String → Option Node`; `none` is a
failed request (`fetch` returning `None` in the source).  The `.1`
component of each `_run` function is the list of page URLs the crawl
actually requests, the `.2` component the accumulated records. -/

/-- `f"{BASE_URL}/{slug}/"`. -/
def categoryStart (slug : String) : String := BASE_URL ++ "/" ++ slug ++ "/"

/-- `scrape_category`, instrumented with the visited URL list.
`page_urls[1:total_pages]` is `drop 1` then `take (total_pages - 1)`;
a failed fetch of a later page is skipped (`continue`). -/
def scrape_category_run (fetch : String → Option Node) (now slug : String)
    (max_pages : Nat) : List String × List Record :=
  match fetch (categoryStart slug) with
  | none => ([categoryStart slug], [])
  | some soup1 =>
      let page_urls := get_all_page_urls soup1 (categoryStart slug)
      let total_pages := min page_urls.length max_pages
      let rest_urls := (page_urls.drop 1).take (total_pages - 1)
      (categoryStart slug :: rest_urls,
        parse_listing_page soup1 now
          ++ rest_urls.flatMap (fun u =>
              match fetch u with
              | none => []
              | some soup => parse_listing_page soup now))

/-- `scrape_category(slug, max_pages)`: the accumulated records. -/
def scrape_category (fetch : String → Option Node) (now slug : String)
    (max_pages : Nat) : List Record :=
  (scrape_category_run fetch now slug max_pages).2

/-- Percent-encode one byte, uppercase (as `urllib.parse.quote_plus`). -/
def pctByte (b : Nat) : List Char :=
  let hx := fun n => if n < 10 then Char.ofNat (48 + n) else Char.ofNat (55 + n)
  ['%', hx (b / 16), hx (b % 16)]

/-- ASCII letter or digit. -/
def isAlnumCh (c : Char) : Bool :=
  isDigitCh c || (65 ≤ c.toNat && c.toNat ≤ 90) || (97 ≤ c.toNat && c.toNat ≤ 122)

/-- `urllib.parse.quote_plus` on one character (UTF-8 percent-encoding,
space to `+`, the unreserved characters kept). -/
def quotePlusCh (c : Char) : List Char :=
  if c == ' ' then ['+']
  else if isAlnumCh c || c == '-' || c == '_' || c == '.' || c == '~' then [c]
  else (((String.mk [c]).toUTF8.toList).map (fun b => pctByte b.toNat)).flatten

/-- `quote_plus(query)`. -/
def quotePlus (s : String) : String := String.mk ((s.data.map quotePlusCh).flatten)

/-- `f"{BASE_URL}/index.php?dispatch=products.search&q={quote_plus(query)}"`. -/
def searchStart (query : String) : String :=
  BASE_URL ++ "/index.php?dispatch=products.search&q=" ++ quotePlus query

/-- The `while url and page <= max_pages` loop of `scrape_search`, with the
remaining page budget as fuel: fetch the page (a failed fetch breaks), stop
on an empty extraction, otherwise follow the next-page link if any. -/
def searchGo (fetch : String → Option Node) (now : String) : Nat → String → List String × List Record
  | 0, _ => ([], [])
  | fuel + 1, url =>
      match fetch url with
      | none => ([url], [])
      | some soup =>
          let results := parse_listing_page soup now
          if results.isEmpty then ([url], results)
          else
            match get_next_page_url soup with
            | none => ([url], results)
            | some next =>
                let p := searchGo fetch now fuel next
                (url :: p.1, results ++ p.2)

/-- `scrape_search(query, max_pages)`, instrumented with the visited URLs. -/
def scrape_search_run (fetch : String → Option Node) (now query : String)
    (max_pages : Nat) : List String × List Record :=
  searchGo fetch now max_pages (searchStart query)

/-- `scrape_search(query, max_pages)`: the accumulated records. -/
def scrape_search (fetch : String → Option Node) (now query : String)
    (max_pages : Nat) : List Record :=
  (scrape_search_run fetch now query max_pages).2

/-! ## `deduplicate` -/

/-- The `seen`/`out` loop of `deduplicate`, out-accumulation written as
structural recursion: keep the first record per distinct `url`. -/
def dedupGo (seen : List String) : List Record → List Record
  | [] => []
  | r :: rest =>
      if r.url ∈ seen then dedupGo seen rest
      else r :: dedupGo (r.url :: seen) rest

/-- `deduplicate(results)`. -/
def deduplicate (results : List Record) : List Record := dedupGo [] results

/-! ## Concrete fixtures

Small listing-page documents used to evaluate the scraper on concrete
inputs. -/

/-- A fixed timestamp standing in for `datetime.now().isoformat()`. -/
def tNow : String := "2026-01-01T00:00:00"

/-- Product URL of the zero-price fixture. -/
def c1url : String := "https://www.anvelopemoto.eu/dunlop-sportsmart-mk3-180-55-zr17/"

/-- Anchor of the zero-price fixture. -/
def c1anchor : Node :=
  .elem "a" [("title", "Dunlop SportSmart MK3 180/55"), ("href", c1url)]
    (nodesOf [.text "Dunlop SportSmart MK3"])

/-- A product card whose two currency-tagged tokens are `0,00 lei` and
`5,00 lei`. -/
def c1div : Node :=
  .elem "div" [] (nodesOf [c1anchor, .text " Pret: 0,00 lei Pret vechi: 5,00 lei"])

/-- Listing page containing only the zero-price card. -/
def c1doc : Node :=
  .elem "[document]" []
    (nodesOf [.elem "html" [] (nodesOf [.elem "body" [] (nodesOf [c1div])])])

/-- Product URL of the no-container fixture. -/
def c2url : String := "https://www.anvelopemoto.eu/michelin-road-6-120-70-zr17/"

/-- Candidate anchor whose ancestors never contain the currency marker. -/
def c2anchor : Node :=
  .elem "a" [("title", "Michelin Road 6 120/70 ZR17"), ("href", c2url)]
    (nodesOf [.text "Michelin Road 6"])

/-- Immediate parent of the anchor; its text has no `"lei"`. -/
def c2div : Node := .elem "div" [] (nodesOf [c2anchor])

/-- Body (a structural boundary of the upward walk). -/
def c2body : Node := .elem "body" [] (nodesOf [c2div])

/-- Html wrapper. -/
def c2html : Node := .elem "html" [] (nodesOf [c2body])

/-- Listing page with one candidate and no price text anywhere. -/
def c2doc : Node := .elem "[document]" [] (nodesOf [c2html])

/-- Root-relative product href (never accepted by the code's filter). -/
def c3href : String := "/michelin-road-6-120-70-zr17/"

/-- Title of the root-relative anchor. -/
def c3title : String := "Michelin Road 6 120/70 ZR17"

/-- Listing page whose only anchor has a root-relative href with a long
title, sitting in a block with a price. -/
def c3doc : Node :=
  .elem "[document]" []
    (nodesOf [.elem "html" []
      (nodesOf [.elem "body" []
        (nodesOf [.elem "div" []
          (nodesOf [.elem "a" [("title", c3title), ("href", c3href)]
              (nodesOf [.text "Michelin Road 6"]),
            .text " 1.234,56 lei"])])])])

/-- Product URL of the out-of-stock fixture. -/
def c8url : String := "https://www.anvelopemoto.eu/pirelli-angel-gt-120-70-zr17/"

/-- Listing page with one product card marked `Momentan Indisponibil`. -/
def c8doc : Node :=
  .elem "[document]" []
    (nodesOf [.elem "html" []
      (nodesOf [.elem "body" []
        (nodesOf [.elem "div" []
          (nodesOf [.elem "a" [("title", "Pirelli Angel GT 120/70 ZR17"), ("href", c8url)]
              (nodesOf [.text "Pirelli Angel GT"]),
            .text " 123,45 lei Momentan Indisponibil"])])])])

/-- Category URL of the pagination fixture. -/
def c6base : String := "https://www.anvelopemoto.eu/anvelope-moto/"

/-- First category page with links `page-2`, `page-3` and a collapsed
range label "5 - 8" on a `page-5` link. -/
def c6page : Node :=
  .elem "[document]" []
    (nodesOf [.elem "html" []
      (nodesOf [.elem "body" []
        (nodesOf
          [.elem "a" [("href", "https://www.anvelopemoto.eu/anvelope-moto/page-2/")]
              (nodesOf [.text "2"]),
           .elem "a" [("href", "https://www.anvelopemoto.eu/anvelope-moto/page-3/")]
              (nodesOf [.text "3"]),
           .elem "a" [("href", "https://www.anvelopemoto.eu/anvelope-moto/page-5/")]
              (nodesOf [.text "5 - 8"])])])])

/-- Fetch oracle serving the pagination fixture as the category's first
page and failing everywhere else. -/
def c6fetch : String → Option Node :=
  fun u => if u == categoryStart "anvelope-moto" then some c6page else none

/-- Fetch oracle whose search result page has no product candidates at
all (an empty extraction). -/
def c9fetch : String → Option Node :=
  fun u => if u == searchStart "michelin" then some c3doc else none

/-- Fetch oracle for the category crawl that serves the pagination fixture
first and a page with zero products for every later page. -/
def c9catFetchA : String → Option Node :=
  fun u => if u == categoryStart "anvelope-moto" then some c6page else some c3doc

/-- Same first page as `c9catFetchA` but every later request fails. -/
def c9catFetchB : String → Option Node :=
  fun u => if u == categoryStart "anvelope-moto" then some c6page else none

/-! ## Spec-side definitions and witness fixtures -/

/-- The spec's candidate-product condition as written (minus the
root-relative alternative the code lacks): href on the vendor's own
domain, stripped title longer than 8 characters, no denylist substring. -/
def specCandidateProduct (href title : String) : Bool :=
  strStarts href "https://www.anvelopemoto.eu/"
    && decide (8 < title.length)
    && !(denylist.any (fun x => strContains href x))

/-- A record for the deduplication witness. -/
def c7a : Record :=
  { source := SOURCE, name := "Tyre A", price := "", original_price := "",
    price_value := none, currency := "RON (lei)", discount := "",
    availability := "Unknown", in_stock := true, product_code := "",
    shop := SOURCE, url := "https://www.anvelopemoto.eu/tyre-a/",
    scraped_at := "2026-01-01T00:00:00" }

/-- The same product seen again later in the crawl: identical `url`,
different `scraped_at`. -/
def c7b : Record := { c7a with scraped_at := "2026-01-02T12:00:00" }

/-- The four stock phrases tested, in the source's priority order. -/
def stockPhrases : List String :=
  ["momentan indisponibil", "stoc bucuresti", "in stoc furnizor", "la comanda"]

/-- The record `parse_listing_page` emits for the zero-price fixture. -/
def c1rec : Record :=
  { source := SOURCE, name := "Dunlop SportSmart MK3 180/55", price := "5,00 lei",
    original_price := "", price_value := some ⟨500, 2⟩, currency := "RON (lei)",
    discount := "", availability := "Unknown", in_stock := true, product_code := "",
    shop := SOURCE, url := c1url, scraped_at := tNow }

/-- The record `parse_listing_page` emits for the out-of-stock fixture. -/
def c8rec : Record :=
  { source := SOURCE, name := "Pirelli Angel GT 120/70 ZR17", price := "123,45 lei",
    original_price := "", price_value := some ⟨12345, 2⟩, currency := "RON (lei)",
    discount := "", availability := "Out of stock", in_stock := false, product_code := "",
    shop := SOURCE, url := c8url, scraped_at := tNow }


/-- A well-formed localized price token: leading digits, dot-separated
digit groups, a comma and decimal digits (e.g. `"1.335,62"`). -/
def ronToken (lead : List Char) (groups : List (List Char)) (dec : List Char) : String :=
  String.mk (lead ++ groups.flatMap (fun g => '.' :: g) ++ ',' :: dec)


/-! # Theorems -/

/-! ## Basic helper lemmas -/

@[simp]
theorem data_mk (cs : List Char) : (String.mk cs).data = cs := rfl

theorem pyle_refl (a : PyFloat) : PyFloat.le a a := le_refl _

theorem pyle_trans {a b c : PyFloat} (h1 : PyFloat.le a b) (h2 : PyFloat.le b c) :
    PyFloat.le a c := by
  unfold PyFloat.le at h1 h2 ⊢
  have hb : (0 : Int) < 10 ^ b.exp := pow_pos (by norm_num) _
  have hnn : (0 : Int) ≤ 10 := by norm_num
  have h1' := mul_le_mul_of_nonneg_right h1 (pow_nonneg hnn c.exp)
  have h2' := mul_le_mul_of_nonneg_right h2 (pow_nonneg hnn a.exp)
  have key : a.num * 10 ^ c.exp * 10 ^ b.exp ≤ c.num * 10 ^ a.exp * 10 ^ b.exp := by
    calc a.num * 10 ^ c.exp * 10 ^ b.exp = a.num * 10 ^ b.exp * 10 ^ c.exp := by ring
      _ ≤ b.num * 10 ^ a.exp * 10 ^ c.exp := h1'
      _ = b.num * 10 ^ c.exp * 10 ^ a.exp := by ring
      _ ≤ c.num * 10 ^ b.exp * 10 ^ a.exp := h2'
      _ = c.num * 10 ^ a.exp * 10 ^ b.exp := by ring
  exact le_of_mul_le_mul_right key hb

theorem pyle_total (a b : PyFloat) : PyFloat.le a b ∨ PyFloat.le b a :=
  Int.le_total (a.num * 10 ^ b.exp) (b.num * 10 ^ a.exp)

instance : IsTrans (String × PyFloat) leByVal :=
  ⟨fun _ _ _ h1 h2 => pyle_trans h1 h2⟩

instance : IsTotal (String × PyFloat) leByVal :=
  ⟨fun a b => pyle_total a.2 b.2⟩

theorem mem_of_getLast_eq {α : Type} : ∀ {l : List α} {a : α}, l.getLast? = some a → a ∈ l
  | [], _, h => by simp at h
  | [x], a, h => by
      simp [List.getLast?] at h
      simp [h]
  | x :: y :: t, a, h => by
      rw [List.getLast?_cons_cons] at h
      exact List.mem_cons_of_mem _ (mem_of_getLast_eq h)

theorem sorted_getLast_max {α : Type} {r : α → α → Prop} (hrefl : ∀ x, r x x) :
    ∀ (l : List α), l.Sorted r → ∀ x ∈ l, ∀ m, l.getLast? = some m → r x m
  | [] => by intro _ x hx; simp at hx
  | [y] => by
      intro hs x hx m hm
      simp [List.getLast?] at hm
      simp at hx
      rw [hx, ← hm]
      exact hrefl y
  | y :: z :: t => by
      intro hs x hx m hm
      rw [List.getLast?_cons_cons] at hm
      rcases List.mem_cons.mp hx with hx | hx
      · exact hx ▸ List.rel_of_sorted_cons hs _ (mem_of_getLast_eq hm)
      · exact sorted_getLast_max hrefl (z :: t) hs.of_cons x hx m hm

/-! ## Lemmas about `deduplicate` -/

theorem dedupGo_sublist : ∀ (rs : List Record) (seen : List String),
    (dedupGo seen rs).Sublist rs
  | [], _ => by simp [dedupGo]
  | r :: rest, seen => by
      by_cases h : r.url ∈ seen
      · simp only [dedupGo, if_pos h]
        exact (dedupGo_sublist rest seen).cons r
      · simp only [dedupGo, if_neg h]
        exact (dedupGo_sublist rest (r.url :: seen)).cons₂ r

theorem mem_dedupGo : ∀ (rs : List Record) (seen : List String) (r : Record),
    r ∈ dedupGo seen rs → r ∈ rs ∧ r.url ∉ seen
  | [], seen, r => by simp [dedupGo]
  | a :: rest, seen, r => by
      by_cases h : a.url ∈ seen
      · simp only [dedupGo, if_pos h]
        intro hm
        have hr := mem_dedupGo rest seen r hm
        exact ⟨List.mem_cons_of_mem _ hr.1, hr.2⟩
      · simp only [dedupGo, if_neg h]
        intro hm
        rcases List.mem_cons.mp hm with hm | hm
        · refine ⟨by simp [hm], ?_⟩
          rw [hm]
          exact h
        · have hr := mem_dedupGo rest (a.url :: seen) r hm
          refine ⟨List.mem_cons_of_mem _ hr.1, fun hc => hr.2 ?_⟩
          exact List.mem_cons_of_mem _ hc

theorem dedupGo_pairwise : ∀ (rs : List Record) (seen : List String),
    (dedupGo seen rs).Pairwise (fun a b => a.url ≠ b.url)
  | [], _ => by simp [dedupGo]
  | a :: rest, seen => by
      by_cases h : a.url ∈ seen
      · simp only [dedupGo, if_pos h]
        exact dedupGo_pairwise rest seen
      · simp only [dedupGo, if_neg h]
        refine List.Pairwise.cons ?_ (dedupGo_pairwise rest (a.url :: seen))
        intro x hx
        have hx2 := (mem_dedupGo rest (a.url :: seen) x hx).2
        intro hcontra
        exact hx2 (by simp [hcontra])

theorem dedupGo_find : ∀ (rs : List Record) (seen : List String) (r : Record),
    r ∈ dedupGo seen rs → rs.find? (fun x => x.url == r.url) = some r
  | [], seen, r => by simp [dedupGo]
  | a :: rest, seen, r => by
      by_cases h : a.url ∈ seen
      · simp only [dedupGo, if_pos h]
        intro hm
        have hmem := mem_dedupGo rest seen r hm
        have hne : (a.url == r.url) = false := by
          simp only [beq_eq_false_iff_ne, ne_eq]
          intro hc
          exact hmem.2 (hc ▸ h)
        simp only [List.find?, hne]
        exact dedupGo_find rest seen r hm
      · simp only [dedupGo, if_neg h]
        intro hm
        rcases List.mem_cons.mp hm with hm | hm
        · subst hm
          simp [List.find?]
        · have hmem := mem_dedupGo rest (a.url :: seen) r hm
          have hne : (a.url == r.url) = false := by
            simp only [beq_eq_false_iff_ne, ne_eq]
            intro hc
            exact hmem.2 (by simp [hc])
          simp only [List.find?, hne]
          exact dedupGo_find rest (a.url :: seen) r hm

theorem dedupGo_covers : ∀ (rs : List Record) (seen : List String) (r : Record),
    r ∈ rs → r.url ∈ seen ∨ ∃ q, q ∈ dedupGo seen rs ∧ q.url = r.url
  | [], seen, r => by simp
  | a :: rest, seen, r => by
      intro hm
      by_cases h : a.url ∈ seen
      · simp only [dedupGo, if_pos h]
        rcases List.mem_cons.mp hm with hm | hm
        · subst hm; exact Or.inl h
        · exact dedupGo_covers rest seen r hm
      · simp only [dedupGo, if_neg h]
        rcases List.mem_cons.mp hm with hm | hm
        · subst hm
          exact Or.inr ⟨r, List.mem_cons_self _ _, rfl⟩
        · rcases dedupGo_covers rest (a.url :: seen) r hm with hs | ⟨q, hq, hu⟩
          · rcases List.mem_cons.mp hs with he | hs
            · exact Or.inr ⟨a, List.mem_cons_self _ _, he.symm⟩
            · exact Or.inl hs
          · exact Or.inr ⟨q, List.mem_cons_of_mem _ hq, hu⟩

/-- Claim C7: the deduplicated export keeps, in original order, exactly the
first-seen record per distinct url: the output is a sublist of the input
with pairwise-distinct urls, every kept record is the first input record
carrying its url, and every input url is represented. -/
theorem c7_deduplicate : ∀ rs : List Record,
    (deduplicate rs).Sublist rs
    ∧ (deduplicate rs).Pairwise (fun a b => a.url ≠ b.url)
    ∧ (∀ r, r ∈ deduplicate rs → rs.find? (fun x => x.url == r.url) = some r)
    ∧ (∀ r, r ∈ rs → ∃ q, q ∈ deduplicate rs ∧ q.url = r.url) := by
  intro rs
  refine ⟨dedupGo_sublist rs [], dedupGo_pairwise rs [], ?_, ?_⟩
  · intro r hr
    exact dedupGo_find rs [] r hr
  · intro r hr
    rcases dedupGo_covers rs [] r hr with hs | h
    · simp at hs
    · exact h

/-- Witness for C7 at a concrete two-element input sharing one url with
differing timestamps. -/
theorem c7_witness :
    ([c7a, c7b].find? (fun x => x.url == c7a.url) = some c7a)
    ∧ (deduplicate [c7a, c7b]).Pairwise (fun a b => a.url ≠ b.url) := by
  have h := c7_deduplicate [c7a, c7b]
  exact ⟨h.2.2.1 c7a (by decide), h.2.1⟩

/-- Claim C5: the price parser meets its concrete test vectors
(`PyFloat` values are exact decimals; `.val` is the denoted rational). -/
theorem c5_price_vectors :
    parse_ron "67,01" = some ⟨6701, 2⟩
    ∧ (PyFloat.mk 6701 2).val = 67.01
    ∧ parse_ron "1.335,62" = some ⟨133562, 2⟩
    ∧ (PyFloat.mk 133562 2).val = 1335.62
    ∧ parse_ron "not a price" = none := by
  refine ⟨by decide, ?_, by decide, ?_, by decide⟩
  · show Rat.divInt 6701 ((10 : Int) ^ 2) = 67.01
    norm_num [Rat.divInt_eq_div]
  · show Rat.divInt 133562 ((10 : Int) ^ 2) = 1335.62
    norm_num [Rat.divInt_eq_div]

/-! ## Lemmas about `parse_listing_page` -/

theorem extractRecord_url (href title t now : String) :
    (extractRecord href title t now).url = href := rfl

theorem mem_dedupByUrl : ∀ (cs : List (String × String × List Node)) (seen : List String)
    (c : String × String × List Node), c ∈ dedupByUrl seen cs → c ∈ cs
  | [], _, _ => by simp [dedupByUrl]
  | a :: rest, seen, c => by
      by_cases h : a.1 ∈ seen
      · simp only [dedupByUrl, if_pos h]
        intro hm
        exact List.mem_cons_of_mem _ (mem_dedupByUrl rest seen c hm)
      · simp only [dedupByUrl, if_neg h]
        intro hm
        rcases List.mem_cons.mp hm with hm | hm
        · simp [hm]
        · exact List.mem_cons_of_mem _ (mem_dedupByUrl rest (a.1 :: seen) c hm)

theorem candOf_isCandidate (p : Node × List Node) (c : String × String × List Node)
    (h : candOf p = some c) : isCandidateLink c.1 c.2.1 = true := by
  unfold candOf at h
  split_ifs at h with h1 h2
  · injection h with h3
    subst h3
    exact h2

theorem mem_parse_listing (doc : Node) (now : String) (r : Record)
    (h : r ∈ parse_listing_page doc now) :
    ∃ c, c ∈ candTriples doc ∧ isCandidateLink c.1 c.2.1 = true
      ∧ r = extractRecord c.1 c.2.1 (rawTextOf c.2.2) now := by
  unfold parse_listing_page at h
  rcases List.mem_map.mp h with ⟨c, hc, heq⟩
  have hc2 := mem_dedupByUrl _ [] c hc
  rcases List.mem_filterMap.mp hc2 with ⟨p, _, hcand⟩
  exact ⟨c, hc2, candOf_isCandidate p c hcand, heq.symm⟩

theorem isCandidate_wishlist_false {href title : String}
    (h : isCandidateLink href title = true) : strContains href "wishlist" = false := by
  unfold isCandidateLink at h
  simp only [Bool.and_eq_true, Bool.not_eq_true'] at h
  have hany := h.2
  rw [List.any_eq_false] at hany
  have hw := hany "wishlist" (by decide)
  simpa using hw

/-- Claim C3 counterexample: a root-relative product href with a long
title and no denylisted substring is nevertheless not a candidate, and no
record is emitted for it — against the claim's "or is a root-relative
path". -/
theorem c3_counterexample :
    strStarts c3href "/" = true
    ∧ 8 < (strStrip c3title).length
    ∧ (denylist.any (fun x => strContains c3href x)) = false
    ∧ isCandidateLink c3href (strStrip c3title) = false
    ∧ parse_listing_page c3doc tNow = [] :=
  ⟨by decide, by decide, by decide, by decide, by decide⟩

/-- Claim C3 (amended): an anchor is a candidate product iff its href
starts with the vendor's absolute-domain prefix (root-relative paths are
not accepted), its stripped title is longer than 8 characters and its href
contains no denylist substring; consequently no emitted record's url ever
contains "wishlist". -/
theorem c3_candidate_filter :
    (∀ href title, isCandidateLink href title = specCandidateProduct href title)
    ∧ (∀ doc now r, r ∈ parse_listing_page doc now → strContains r.url "wishlist" = false) := by
  constructor
  · intro href title
    unfold isCandidateLink specCandidateProduct
    by_cases h8 : 8 < title.length
    · have hne : (title != "") = true := by
        simp only [bne_iff_ne, ne_eq]
        intro he
        rw [he] at h8
        simp at h8
      rw [hne]
      simp [h8]
    · have hd : decide (8 < title.length) = false := by simp [h8]
      rw [hd]
      simp
  · intro doc now r h
    rcases mem_parse_listing doc now r h with ⟨c, _, hcand, heq⟩
    rw [heq, extractRecord_url]
    exact isCandidate_wishlist_false hcand

/-- Witness for C3 applied to a concrete emitted record. -/
theorem c3_witness : strContains c1rec.url "wishlist" = false :=
  c3_candidate_filter.2 c1doc tNow c1rec (by decide)

/-- Claim C2 counterexample: in a page with one candidate whose ancestor
walk resolves no content block, the candidate is not silently skipped — a
record for its url is still emitted. -/
theorem c2_counterexample :
    (resolveContainer [c2div, c2body, c2html, c2doc]).isNone = true
    ∧ (candTriples c2doc).map (fun c => (c.1, rawTextOf c.2.2)) = [(c2url, "")]
    ∧ (parse_listing_page c2doc tNow).map (fun r => r.url) = [c2url] :=
  ⟨by decide, by decide, by decide⟩

/-- Claim C2 (amended): extraction is total; a candidate whose upward walk
finds no content block is not skipped: its raw text is empty and it is
still emitted, with empty prices, no price value, availability "Unknown"
and in-stock true; every deduplicated candidate yields exactly one
record. -/
theorem c2_unresolved_block :
    (∀ ancs, (resolveContainer ancs).isNone = true → rawTextOf ancs = "")
    ∧ (∀ href title now,
        (extractRecord href title "" now).price = ""
        ∧ (extractRecord href title "" now).original_price = ""
        ∧ (extractRecord href title "" now).price_value = none
        ∧ (extractRecord href title "" now).availability = "Unknown"
        ∧ (extractRecord href title "" now).in_stock = true
        ∧ (extractRecord href title "" now).url = href
        ∧ (extractRecord href title "" now).name = title)
    ∧ (∀ doc now, (parse_listing_page doc now).length = (dedupByUrl [] (candTriples doc)).length) := by
  refine ⟨?_, ?_, ?_⟩
  · intro ancs h
    cases hrc : resolveContainer ancs with
    | none => simp [rawTextOf, hrc]
    | some c => rw [hrc] at h; simp at h
  · intro href title now
    exact ⟨rfl, rfl, rfl, rfl, rfl, rfl, rfl⟩
  · intro doc now
    unfold parse_listing_page
    rw [List.length_map]

/-- Witness for C2 at the concrete unresolved ancestor chain. -/
theorem c2_witness : rawTextOf [c2div, c2body, c2html, c2doc] = "" :=
  c2_unresolved_block.1 [c2div, c2body, c2html, c2doc] (by decide)

/-! ## Availability and zero-price lemmas -/

theorem extractRecord_avail_out {href title t now : String}
    (h : strContains (strLower t) "momentan indisponibil" = true) :
    (extractRecord href title t now).availability = "Out of stock"
    ∧ (extractRecord href title t now).in_stock = false := by
  constructor <;> simp [extractRecord, h]

theorem extractRecord_avail_unknown {href title t now : String}
    (h : ∀ p ∈ stockPhrases, strContains (strLower t) p = false) :
    (extractRecord href title t now).availability = "Unknown"
    ∧ (extractRecord href title t now).in_stock = true := by
  have h1 := h "momentan indisponibil" (by simp [stockPhrases])
  have h2 := h "stoc bucuresti" (by simp [stockPhrases])
  have h3 := h "in stoc furnizor" (by simp [stockPhrases])
  have h4 := h "la comanda" (by simp [stockPhrases])
  constructor <;> simp [extractRecord, h1, h2, h3, h4]

/-- Claim C8: availability is decided by substring search on the block's
lowercased text; a block containing "Momentan Indisponibil" (any letter
case) yields availability "Out of stock" with in-stock false, and a block
matching none of the stock phrases defaults to "Unknown" with in-stock
true. -/
theorem c8_availability :
    ∀ doc now r, r ∈ parse_listing_page doc now →
      ∃ href title ancs, r = extractRecord href title (rawTextOf ancs) now
        ∧ (strContains (strLower (rawTextOf ancs)) "momentan indisponibil" = true →
            r.availability = "Out of stock" ∧ r.in_stock = false)
        ∧ ((∀ p ∈ stockPhrases, strContains (strLower (rawTextOf ancs)) p = false) →
            r.availability = "Unknown" ∧ r.in_stock = true) := by
  intro doc now r h
  rcases mem_parse_listing doc now r h with ⟨c, _, _, heq⟩
  refine ⟨c.1, c.2.1, c.2.2, heq, ?_, ?_⟩
  · intro hc
    rw [heq]
    exact extractRecord_avail_out hc
  · intro hc
    rw [heq]
    exact extractRecord_avail_unknown hc

/-- Witness for C8 at the concrete out-of-stock fixture. -/
theorem c8_witness :
    ∃ href title ancs, c8rec = extractRecord href title (rawTextOf ancs) tNow
      ∧ (strContains (strLower (rawTextOf ancs)) "momentan indisponibil" = true →
          c8rec.availability = "Out of stock" ∧ c8rec.in_stock = false)
      ∧ ((∀ p ∈ stockPhrases, strContains (strLower (rawTextOf ancs)) p = false) →
          c8rec.availability = "Unknown" ∧ c8rec.in_stock = true) :=
  c8_availability c8doc tNow c8rec (by decide)

/-- Claim C10: tokens whose parsed value is zero are discarded by the
truthiness filter, and a block whose tokens all parse to zero is emitted
as priceless (empty price strings, no price value). -/
theorem c10_zero_tokens :
    (∀ t, ∀ pv ∈ priceNumeric (priceTokens t), pv.2.num ≠ 0)
    ∧ (∀ href title t now,
        (∀ p ∈ priceTokens t, ∃ v, parse_ron p = some v ∧ v.num = 0) →
        (extractRecord href title t now).price = ""
        ∧ (extractRecord href title t now).original_price = ""
        ∧ (extractRecord href title t now).price_value = none) := by
  constructor
  · intro t pv hpv
    unfold priceNumeric at hpv
    rcases List.mem_filterMap.mp hpv with ⟨p, _, hsome⟩
    cases hv : parse_ron p with
    | none => rw [hv] at hsome; simp at hsome
    | some v =>
        rw [hv] at hsome
        dsimp only at hsome
        by_cases hz : v.num = 0
        · rw [if_neg (by simp [hz])] at hsome
          simp at hsome
        · rw [if_pos hz] at hsome
          injection hsome with h3
          rw [← h3]
          exact hz
  · intro href title t now hall
    have hempty : priceNumeric (priceTokens t) = [] := by
      rw [List.eq_nil_iff_forall_not_mem]
      intro pv hpv
      unfold priceNumeric at hpv
      rcases List.mem_filterMap.mp hpv with ⟨p, hp, hsome⟩
      rcases hall p hp with ⟨v, hv, hz⟩
      rw [hv] at hsome
      dsimp only at hsome
      rw [if_neg (by simp [hz])] at hsome
      simp at hsome
    refine ⟨?_, ?_, ?_⟩ <;> simp [extractRecord, fmt, hempty]

/-- Witness for C10 at a block whose only token is `0,00 lei`. -/
theorem c10_witness :
    (extractRecord "u" "n" "Pret: 0,00 lei" tNow).price = ""
    ∧ (extractRecord "u" "n" "Pret: 0,00 lei" tNow).original_price = ""
    ∧ (extractRecord "u" "n" "Pret: 0,00 lei" tNow).price_value = none :=
  c10_zero_tokens.2 "u" "n" "Pret: 0,00 lei" tNow (by
    intro p hp
    have hp2 : p = "0,00" := by
      have : priceTokens "Pret: 0,00 lei" = ["0,00"] := by decide
      rw [this] at hp
      simpa using hp
    rw [hp2]
    exact ⟨⟨0, 2⟩, by decide, rfl⟩)

/-! ## Price selection (claim C1) -/

theorem leByVal_refl (x : String × PyFloat) : leByVal x x := pyle_refl x.2

/-- Claim C1 counterexample: a block whose currency-tagged tokens are
`0,00 lei` and `5,00 lei` — both parse to numeric values, the lowest being
0.0 — is emitted with price "5,00 lei" and empty original price, not with
the claimed lowest token as sale price and highest as original. -/
theorem c1_counterexample :
    priceTokens (getTextSep c1div) = ["0,00", "5,00"]
    ∧ parse_ron "0,00" = some ⟨0, 2⟩
    ∧ parse_ron "5,00" = some ⟨500, 2⟩
    ∧ (parse_listing_page c1doc tNow).map (fun r => (r.price, r.original_price, r.price_value))
        = [("5,00 lei", "", some ⟨500, 2⟩)]
    ∧ ("5,00 lei", "", (some ⟨500, 2⟩ : Option PyFloat))
        ≠ ("0,00 lei", "5,00 lei", some ⟨0, 2⟩) :=
  ⟨by decide, by decide, by decide, by decide, by decide⟩

/-- Claim C1 (amended): among the tokens that parse to a nonzero value,
the emitted sale price is a token of minimal value, the original price a
token of maximal value, and the numeric price value is that minimal value,
so sale ≤ original; exactly one nonzero-parsing token becomes the sale
price with empty original; when there is none the record is priceless.
Every record of `parse_listing_page` is built by `extractRecord` from its
block's text. -/
theorem c1_price_selection :
    (∀ doc now r, r ∈ parse_listing_page doc now →
        ∃ href title ancs, r = extractRecord href title (rawTextOf ancs) now)
    ∧ (∀ href title t now,
        (2 ≤ (priceNumeric (priceTokens t)).length →
          ∃ lo hi, lo ∈ priceNumeric (priceTokens t) ∧ hi ∈ priceNumeric (priceTokens t)
            ∧ (extractRecord href title t now).price = fmt lo.1
            ∧ (extractRecord href title t now).price_value = some lo.2
            ∧ (extractRecord href title t now).original_price = fmt hi.1
            ∧ (∀ q ∈ priceNumeric (priceTokens t), PyFloat.le lo.2 q.2 ∧ PyFloat.le q.2 hi.2)
            ∧ PyFloat.le lo.2 hi.2)
        ∧ (∀ p, priceNumeric (priceTokens t) = [p] →
            (extractRecord href title t now).price = fmt p.1
            ∧ (extractRecord href title t now).price_value = some p.2
            ∧ (extractRecord href title t now).original_price = "")
        ∧ (priceNumeric (priceTokens t) = [] →
            (extractRecord href title t now).price = ""
            ∧ (extractRecord href title t now).price_value = none
            ∧ (extractRecord href title t now).original_price = "")) := by
  constructor
  · intro doc now r h
    rcases mem_parse_listing doc now r h with ⟨c, _, _, heq⟩
    exact ⟨c.1, c.2.1, c.2.2, heq⟩
  · intro href title t now
    refine ⟨?_, ?_, ?_⟩
    · intro h2
      have hperm := List.perm_insertionSort leByVal (priceNumeric (priceTokens t))
      have hsort := List.sorted_insertionSort leByVal (priceNumeric (priceTokens t))
      have h2s : 2 ≤ ((priceNumeric (priceTokens t)).insertionSort leByVal).length := by
        rw [hperm.length_eq]
        exact h2
      cases hseq : (priceNumeric (priceTokens t)).insertionSort leByVal with
      | nil => rw [hseq] at h2s; simp at h2s
      | cons a s1 =>
        cases hseq1 : s1 with
        | nil =>
            rw [hseq, hseq1] at h2s
            simp at h2s
        | cons b rest =>
          rw [hseq1] at hseq
          rw [hseq] at hperm hsort
          cases hm : (a :: b :: rest).getLast? with
          | none => simp at hm
          | some m =>
            have hma : a ∈ priceNumeric (priceTokens t) :=
              hperm.mem_iff.mp (List.mem_cons_self _ _)
            have hmm : m ∈ priceNumeric (priceTokens t) :=
              hperm.mem_iff.mp (mem_of_getLast_eq hm)
            have hmin : ∀ q ∈ a :: b :: rest, PyFloat.le a.2 q.2 := by
              intro q hq
              rcases List.mem_cons.mp hq with hq | hq
              · rw [hq]; exact pyle_refl _
              · exact List.rel_of_sorted_cons hsort q hq
            have hmax : ∀ q ∈ a :: b :: rest, PyFloat.le q.2 m.2 :=
              fun q hq => sorted_getLast_max leByVal_refl (a :: b :: rest) hsort q hq m hm
            have hlt : 1 < (a :: b :: rest).length := by
              simp
            refine ⟨a, m, hma, hmm, ?_, ?_, ?_, ?_, ?_⟩
            · simp [extractRecord, hseq]
            · simp [extractRecord, hseq]
            · simp [extractRecord, hseq, hm, hlt]
            · intro q hq
              have hqs : q ∈ a :: b :: rest := hperm.mem_iff.mpr hq
              exact ⟨hmin q hqs, hmax q hqs⟩
            · exact hmin m (mem_of_getLast_eq hm)
    · intro p hp
      have hs1 : (priceNumeric (priceTokens t)).insertionSort leByVal = [p] := by
        rw [hp]
        rfl
      refine ⟨?_, ?_, ?_⟩ <;> simp [extractRecord, hs1, fmt]
    · intro hp
      have hs0 : (priceNumeric (priceTokens t)).insertionSort leByVal = ([] : List (String × PyFloat)) := by
        rw [hp]
        rfl
      refine ⟨?_, ?_, ?_⟩ <;> simp [extractRecord, hs0, fmt]

/-- Witness for C1 at a block with two nonzero tokens. -/
theorem c1_witness :
    ∃ lo hi,
      lo ∈ priceNumeric (priceTokens "Oferta: 3,00 lei in loc de 5,00 lei")
      ∧ hi ∈ priceNumeric (priceTokens "Oferta: 3,00 lei in loc de 5,00 lei")
      ∧ (extractRecord "u" "n" "Oferta: 3,00 lei in loc de 5,00 lei" tNow).price = fmt lo.1
      ∧ (extractRecord "u" "n" "Oferta: 3,00 lei in loc de 5,00 lei" tNow).price_value = some lo.2
      ∧ (extractRecord "u" "n" "Oferta: 3,00 lei in loc de 5,00 lei" tNow).original_price = fmt hi.1
      ∧ (∀ q ∈ priceNumeric (priceTokens "Oferta: 3,00 lei in loc de 5,00 lei"),
          PyFloat.le lo.2 q.2 ∧ PyFloat.le q.2 hi.2)
      ∧ PyFloat.le lo.2 hi.2 :=
  (c1_price_selection.2 "u" "n" "Oferta: 3,00 lei in loc de 5,00 lei" tNow).1 (by decide)

/-! ## Character-class and list lemmas for `parse_ron` -/

theorem digit_ne_dot {c : Char} (h : isDigitCh c = true) : (c != '.') = true := by
  simp only [bne_iff_ne, ne_eq]
  intro he
  rw [he] at h
  exact absurd h (by decide)

theorem digit_ne_comma {c : Char} (h : isDigitCh c = true) : (c == ',') = false := by
  simp only [beq_eq_false_iff_ne, ne_eq]
  intro he
  rw [he] at h
  exact absurd h (by decide)

theorem digit_not_space {c : Char} (h : isDigitCh c = true) : isSpaceCh c = false := by
  have h2 : 48 ≤ c.toNat ∧ c.toNat ≤ 57 := by simpa [isDigitCh] using h
  unfold isSpaceCh
  simp only [Bool.or_eq_false_iff]
  refine ⟨⟨⟨⟨⟨?_, ?_⟩, ?_⟩, ?_⟩, ?_⟩, ?_⟩
  · simp only [beq_eq_false_iff_ne, ne_eq]
    intro he
    rw [he] at h
    exact absurd h (by decide)
  · simp only [beq_eq_false_iff_ne, ne_eq]
    intro he
    rw [he] at h
    exact absurd h (by decide)
  · simp only [beq_eq_false_iff_ne, ne_eq]
    intro he
    rw [he] at h
    exact absurd h (by decide)
  · simp only [beq_eq_false_iff_ne, ne_eq]
    intro he
    rw [he] at h
    exact absurd h (by decide)
  · simp only [beq_eq_false_iff_ne, ne_eq]
    omega
  · simp only [beq_eq_false_iff_ne, ne_eq]
    omega

theorem filter_digits_eq {l : List Char} (h : ∀ c ∈ l, isDigitCh c = true) :
    l.filter (fun c => c != '.') = l :=
  List.filter_eq_self.mpr (fun c hc => digit_ne_dot (h c hc))

theorem map_digits_id {l : List Char} (h : ∀ c ∈ l, isDigitCh c = true) :
    l.map (fun c => if c == ',' then '.' else c) = l := by
  induction l with
  | nil => rfl
  | cons c cs ih =>
      rw [List.map_cons]
      rw [if_neg (by simp [digit_ne_comma (h c (by simp))] )]
      rw [ih (fun x hx => h x (List.mem_cons_of_mem _ hx))]

theorem filter_groups (groups : List (List Char))
    (h : ∀ g ∈ groups, ∀ c ∈ g, isDigitCh c = true) :
    (groups.flatMap (fun g => '.' :: g)).filter (fun c => c != '.') = groups.flatten := by
  induction groups with
  | nil => rfl
  | cons g gs ih =>
      have hg := h g (by simp)
      have hgs : ∀ g2 ∈ gs, ∀ c ∈ g2, isDigitCh c = true :=
        fun g2 hg2 => h g2 (List.mem_cons_of_mem _ hg2)
      simp only [List.flatMap_cons, List.flatten_cons, List.filter_append]
      rw [List.filter_cons]
      simp only [bne_self_eq_false]
      rw [if_neg (by simp), filter_digits_eq hg, ih hgs]

theorem takeWhile_all_append {p : Char → Bool} {l1 l2 : List Char}
    (h : ∀ c ∈ l1, p c = true) : (l1 ++ l2).takeWhile p = l1 ++ l2.takeWhile p := by
  induction l1 with
  | nil => simp
  | cons a t ih =>
      simp only [List.cons_append, List.takeWhile_cons, h a (by simp), if_true]
      rw [ih (fun x hx => h x (List.mem_cons_of_mem _ hx))]

theorem dropWhile_all_append {p : Char → Bool} {l1 l2 : List Char}
    (h : ∀ c ∈ l1, p c = true) : (l1 ++ l2).dropWhile p = l2.dropWhile p := by
  induction l1 with
  | nil => simp
  | cons a t ih =>
      simp only [List.cons_append, List.dropWhile_cons, h a (by simp), if_true]
      exact ih (fun x hx => h x (List.mem_cons_of_mem _ hx))

theorem dropWhile_none {p : Char → Bool} {l : List Char}
    (h : ∀ c ∈ l, p c = false) : l.dropWhile p = l := by
  cases l with
  | nil => rfl
  | cons a t =>
      rw [List.dropWhile_cons, h a (by simp)]
      simp

theorem trimWs_eq_self {l : List Char} (h : ∀ c ∈ l, isSpaceCh c = false) : trimWs l = l := by
  unfold trimWs
  rw [dropWhile_none h]
  rw [dropWhile_none (fun c hc => h c (List.mem_reverse.mp hc))]
  exact List.reverse_reverse l

theorem pyFloatOf_digit_head {x : Char} {R : List Char} (hx : isDigitCh x = true)
    (hns : trimWs (x :: R) = x :: R) : pyFloatOf (x :: R) = pyFloatCore (x :: R) := by
  unfold pyFloatOf
  rw [hns]
  split
  · rename_i r heq
    injection heq with h1 _
    exact absurd (h1 ▸ hx) (by decide)
  · rename_i r heq
    injection heq with h1 _
    exact absurd (h1 ▸ hx) (by decide)
  · rfl

theorem pyFloatCore_split (D dec : List Char)
    (hD : ∀ c ∈ D, isDigitCh c = true) (hne : D ≠ [])
    (hdd : ∀ c ∈ dec, isDigitCh c = true) :
    pyFloatCore (D ++ '.' :: dec)
      = some ⟨((digitsToNat D * 10 ^ dec.length + digitsToNat dec : Nat) : Int), dec.length⟩ := by
  have hall : (D ++ '.' :: dec).all (fun c => isDigitCh c || c == '.') = true := by
    rw [List.all_eq_true]
    intro c hc
    rcases List.mem_append.mp hc with hc | hc
    · simp [hD c hc]
    · rcases List.mem_cons.mp hc with hc | hc
      · rw [hc]; rfl
      · simp [hdd c hc]
  have hD0 : D.count '.' = 0 := by
    rw [List.count_eq_zero]
    intro hmem
    exact absurd (hD '.' hmem) (by decide)
  have hd0 : dec.count '.' = 0 := by
    rw [List.count_eq_zero]
    intro hmem
    exact absurd (hdd '.' hmem) (by decide)
  have hcount : (D ++ '.' :: dec).count '.' = 1 := by
    simp [List.count_append, List.count_cons, hD0, hd0]
  have hany : (D ++ '.' :: dec).any isDigitCh = true := by
    rw [List.any_eq_true]
    obtain ⟨x, D2, rfl⟩ : ∃ x D2, D = x :: D2 := by
      cases D with
      | nil => exact absurd rfl hne
      | cons x D2 => exact ⟨x, D2, rfl⟩
    exact ⟨x, by simp, hD x (by simp)⟩
  have hcond : ((D ++ '.' :: dec).all (fun c => isDigitCh c || c == '.')
      && decide ((D ++ '.' :: dec).count '.' ≤ 1)
      && (D ++ '.' :: dec).any isDigitCh) = true := by
    rw [hall, hany, hcount]
    decide
  have hip : (D ++ '.' :: dec).takeWhile (fun c => c != '.') = D := by
    rw [takeWhile_all_append (fun c hc => digit_ne_dot (hD c hc))]
    rw [List.takeWhile_cons]
    simp
  have hfp : ((D ++ '.' :: dec).dropWhile (fun c => c != '.')).drop 1 = dec := by
    rw [dropWhile_all_append (fun c hc => digit_ne_dot (hD c hc))]
    rw [List.dropWhile_cons]
    simp
  unfold pyFloatCore
  rw [if_pos hcond]
  dsimp only
  rw [hip, hfp]

/-- Claim C4 counterexample: `parse_ron` does not strip non-numeric text,
so the string "1.335,62 lei", which merely embeds a valid token, parses to
no value, while the bare token parses fine. -/
theorem c4_counterexample :
    parse_ron "1.335,62 lei" = none ∧ parse_ron "1.335,62" = some ⟨133562, 2⟩ :=
  ⟨by decide, by decide⟩

/-- Claim C4 (amended): on any bare localized price token (digits with
dot-separated thousands groups, a decimal comma and decimal digits),
`parse_ron` removes the dots, converts the comma and parses the decimal
value exactly; it strips no other characters, so a string with extra text
such as "1.335,62 lei" yields no value rather than raising. -/
theorem c4_parse_ron :
    (∀ lead groups dec,
      lead ≠ [] →
      (∀ c ∈ lead, isDigitCh c = true) →
      (∀ g ∈ groups, ∀ c ∈ g, isDigitCh c = true) →
      dec ≠ [] →
      (∀ c ∈ dec, isDigitCh c = true) →
      parse_ron (ronToken lead groups dec)
        = some ⟨((digitsToNat (lead ++ groups.flatten) * 10 ^ dec.length
                  + digitsToNat dec : Nat) : Int), dec.length⟩)
    ∧ parse_ron "1.335,62 lei" = none := by
  constructor
  · intro lead groups dec hlne hld hgd hdne hdd
    obtain ⟨x, lead2, rfl⟩ : ∃ x lead2, lead = x :: lead2 := by
      cases lead with
      | nil => exact absurd rfl hlne
      | cons x l2 => exact ⟨x, l2, rfl⟩
    have hx := hld x (by simp)
    have hD : ∀ c ∈ (x :: lead2) ++ groups.flatten, isDigitCh c = true := by
      intro c hc
      rcases List.mem_append.mp hc with hc | hc
      · exact hld c hc
      · rcases List.mem_flatten.mp hc with ⟨g, hg, hcg⟩
        exact hgd g hg c hcg
    have hfil : (((x :: lead2) ++ groups.flatMap (fun g => '.' :: g) ++ ',' :: dec).filter
        (fun c => c != '.')) = ((x :: lead2) ++ groups.flatten) ++ ',' :: dec := by
      rw [List.filter_append, List.filter_append, filter_digits_eq hld,
        filter_groups groups hgd, List.filter_cons]
      rw [if_pos (by decide)]
      rw [filter_digits_eq hdd, List.append_assoc]
    have hmap : ((((x :: lead2) ++ groups.flatten) ++ ',' :: dec).map
        (fun c => if c == ',' then '.' else c)) = ((x :: lead2) ++ groups.flatten) ++ '.' :: dec := by
      rw [List.map_append, map_digits_id hD, List.map_cons]
      rw [if_pos (by decide)]
      rw [map_digits_id hdd]
    have hnospace : ∀ c ∈ ((x :: lead2) ++ groups.flatten) ++ '.' :: dec,
        isSpaceCh c = false := by
      intro c hc
      rcases List.mem_append.mp hc with hc | hc
      · exact digit_not_space (hD c hc)
      · rcases List.mem_cons.mp hc with hc | hc
        · rw [hc]; decide
        · exact digit_not_space (hdd c hc)
    have hcons : ((x :: lead2) ++ groups.flatten) ++ '.' :: dec
        = x :: ((lead2 ++ groups.flatten) ++ '.' :: dec) := by
      rw [List.cons_append, List.cons_append]
    unfold parse_ron ronToken
    rw [data_mk, hfil, hmap, hcons]
    rw [pyFloatOf_digit_head hx (by rw [← hcons]; exact trimWs_eq_self hnospace)]
    rw [← hcons]
    exact pyFloatCore_split ((x :: lead2) ++ groups.flatten) dec hD (by simp) hdd
  · decide

/-- Witness for C4 at the token `1.335,62`. -/
theorem c4_witness :
    parse_ron (ronToken ['1'] [['3', '3', '5']] ['6', '2'])
      = some ⟨((digitsToNat (['1'] ++ [['3', '3', '5']].flatten) * 10 ^ (['6', '2'] : List Char).length
                + digitsToNat ['6', '2'] : Nat) : Int), (['6', '2'] : List Char).length⟩ :=
  c4_parse_ron.1 ['1'] [['3', '3', '5']] ['6', '2'] (by decide) (by decide) (by decide)
    (by decide) (by decide)

/-! ## Pagination (claim C6) -/

/-- Claim C6: `get_all_page_urls` returns the base category URL followed by
one `/page-N/` URL per discovered page number (page links plus expanded
range labels), in strictly ascending order; on the fixture with links
`page-2`, `page-3` and a "5 - 8" range label the result covers pages
1,2,3,5,6,7,8 in order; and with the first page fetched, the category
crawl requests `min(discovered, max_pages)` pages. -/
theorem c6_pagination :
    (∀ doc base,
      get_all_page_urls doc base = base :: (sortedPageNums doc).map (mkPageUrl base)
      ∧ (sortedPageNums doc).Sorted (fun a b => a < b)
      ∧ (∀ n, n ∈ sortedPageNums doc ↔ n ∈ discoveredPageNums doc))
    ∧ get_all_page_urls c6page c6base
        = [c6base,
           "https://www.anvelopemoto.eu/anvelope-moto/page-2/",
           "https://www.anvelopemoto.eu/anvelope-moto/page-3/",
           "https://www.anvelopemoto.eu/anvelope-moto/page-5/",
           "https://www.anvelopemoto.eu/anvelope-moto/page-6/",
           "https://www.anvelopemoto.eu/anvelope-moto/page-7/",
           "https://www.anvelopemoto.eu/anvelope-moto/page-8/"]
    ∧ (∀ fetch now slug maxp s1, 1 ≤ maxp →
        fetch (categoryStart slug) = some s1 →
        (scrape_category_run fetch now slug maxp).1.length
          = min (get_all_page_urls s1 (categoryStart slug)).length maxp) := by
  refine ⟨?_, by decide, ?_⟩
  · intro doc base
    refine ⟨rfl, ?_, ?_⟩
    · have hsort := List.sorted_insertionSort (fun a b : Nat => a ≤ b)
        ((discoveredPageNums doc).dedup)
      have hnd : (sortedPageNums doc).Nodup :=
        (List.perm_insertionSort (fun a b : Nat => a ≤ b)
          ((discoveredPageNums doc).dedup)).nodup_iff.mpr (List.nodup_dedup _)
      exact (List.Pairwise.and hsort hnd).imp (fun h => lt_of_le_of_ne h.1 h.2)
    · intro n
      unfold sortedPageNums
      rw [List.mem_insertionSort, List.mem_dedup]
  · intro fetch now slug maxp s1 hmax hf
    unfold scrape_category_run
    rw [hf]
    dsimp only
    simp only [List.length_cons, List.length_take, List.length_drop]
    have hlen : (get_all_page_urls s1 (categoryStart slug)).length
        = (sortedPageNums s1).length + 1 := by
      simp [get_all_page_urls]
    rw [hlen]
    omega

/-- Witness for C6: with the fixture as page 1 and a page cap of 3, the
category crawl requests `min(7, 3) = 3` pages. -/
theorem c6_witness :
    (scrape_category_run c6fetch tNow "anvelope-moto" 3).1.length
      = min (get_all_page_urls c6page (categoryStart "anvelope-moto")).length 3 :=
  c6_pagination.2.2 c6fetch tNow "anvelope-moto" 3 c6page (by decide) rfl

/-! ## Crawl termination (claim C9) -/

theorem searchGo_stop (fetch : String → Option Node) (now : String) :
    ∀ (fuel : Nat) (url : String),
      ((searchGo fetch now fuel url).1.length ≤ fuel)
      ∧ (fuel ≠ 0 → (searchGo fetch now fuel url).1.head? = some url)
      ∧ ((searchGo fetch now fuel url).1.length < fuel →
          ∃ last, (searchGo fetch now fuel url).1.getLast? = some last
            ∧ (fetch last = none
               ∨ ∃ s, fetch last = some s
                   ∧ (parse_listing_page s now = [] ∨ get_next_page_url s = none)))
      ∧ (∀ i, ∀ hi : i + 1 < (searchGo fetch now fuel url).1.length,
          ∃ s, fetch ((searchGo fetch now fuel url).1.get ⟨i, Nat.lt_of_succ_lt hi⟩) = some s
             ∧ parse_listing_page s now ≠ []
             ∧ get_next_page_url s = some ((searchGo fetch now fuel url).1.get ⟨i + 1, hi⟩)) := by
  intro fuel
  induction fuel with
  | zero =>
      intro url
      refine ⟨by simp [searchGo], fun h => absurd rfl h, ?_, ?_⟩
      · intro h
        simp [searchGo] at h
      · intro i hi
        simp [searchGo] at hi
  | succ f ih =>
      intro url
      cases hf : fetch url with
      | none =>
          have hv : (searchGo fetch now (f + 1) url).1 = [url] := by
            unfold searchGo
            rw [hf]
          rw [hv]
          refine ⟨by simp, fun _ => rfl, ?_, ?_⟩
          · intro _
            exact ⟨url, rfl, Or.inl hf⟩
          · intro i hi
            simp at hi
      | some soup =>
          by_cases hre : (parse_listing_page soup now).isEmpty = true
          · have hv : (searchGo fetch now (f + 1) url).1 = [url] := by
              unfold searchGo
              rw [hf]
              dsimp only
              rw [if_pos hre]
            rw [hv]
            refine ⟨by simp, fun _ => rfl, ?_, ?_⟩
            · intro _
              exact ⟨url, rfl, Or.inr ⟨soup, hf, Or.inl (List.isEmpty_iff.mp hre)⟩⟩
            · intro i hi
              simp at hi
          · cases hnx : get_next_page_url soup with
            | none =>
                have hv : (searchGo fetch now (f + 1) url).1 = [url] := by
                  unfold searchGo
                  rw [hf]
                  dsimp only
                  rw [if_neg hre, hnx]
                rw [hv]
                refine ⟨by simp, fun _ => rfl, ?_, ?_⟩
                · intro _
                  exact ⟨url, rfl, Or.inr ⟨soup, hf, Or.inr hnx⟩⟩
                · intro i hi
                  simp at hi
            | some nx =>
                have hv : (searchGo fetch now (f + 1) url).1
                    = url :: (searchGo fetch now f nx).1 := by
                  conv_lhs => unfold searchGo
                  rw [hf]
                  dsimp only
                  rw [if_neg hre, hnx]
                obtain ⟨ih1, ih2, ih3, ih4⟩ := ih nx
                rw [hv]
                generalize hgen : (searchGo fetch now f nx).1 = v at hv ih1 ih2 ih3 ih4 ⊢
                refine ⟨?_, fun _ => rfl, ?_, ?_⟩
                · simp only [List.length_cons]
                  omega
                · intro hlen
                  simp only [List.length_cons] at hlen
                  obtain ⟨last, hl, hreason⟩ := ih3 (by omega)
                  cases v with
                  | nil => simp at hl
                  | cons a t =>
                      rw [List.getLast?_cons_cons]
                      exact ⟨last, hl, hreason⟩
                · intro i hi
                  simp only [List.length_cons] at hi
                  cases i with
                  | zero =>
                      have hfne : f ≠ 0 := by
                        intro h0
                        rw [h0] at ih1
                        omega
                      have hhead := ih2 hfne
                      cases v with
                      | nil => simp at hhead
                      | cons a t =>
                          have ha : a = nx := by
                            simp only [List.head?_cons, Option.some.injEq] at hhead
                            exact hhead
                          refine ⟨soup, hf, ?_, ?_⟩
                          · intro hnil
                            rw [hnil] at hre
                            simp at hre
                          · rw [hnx]
                            exact congrArg some ha.symm
                  | succ j =>
                      exact ih4 j (by omega)

/-- Claim C9: the sequential search crawl stops exactly at the page cap or
at the first visited page whose fetch fails, whose extraction is empty or
which has no next-page link — every earlier visited page had a nonempty
extraction and a next link, which is precisely the page visited next;
whereas the enumerated category crawl's visited pages are determined by
page 1's pagination alone, so a later zero-product (or failed) page never
halts the category traversal by itself. -/
theorem c9_crawl_termination :
    (∀ fetch now query maxp,
      ((scrape_search_run fetch now query maxp).1.length ≤ maxp)
      ∧ (maxp ≠ 0 →
          (scrape_search_run fetch now query maxp).1.head? = some (searchStart query))
      ∧ ((scrape_search_run fetch now query maxp).1.length < maxp →
          ∃ last, (scrape_search_run fetch now query maxp).1.getLast? = some last
            ∧ (fetch last = none
               ∨ ∃ s, fetch last = some s
                   ∧ (parse_listing_page s now = [] ∨ get_next_page_url s = none)))
      ∧ (∀ i, ∀ hi : i + 1 < (scrape_search_run fetch now query maxp).1.length,
          ∃ s, fetch ((scrape_search_run fetch now query maxp).1.get
                  ⟨i, Nat.lt_of_succ_lt hi⟩) = some s
             ∧ parse_listing_page s now ≠ []
             ∧ get_next_page_url s
                 = some ((scrape_search_run fetch now query maxp).1.get ⟨i + 1, hi⟩)))
    ∧ (∀ fetchA fetchB now slug maxp s1,
        fetchA (categoryStart slug) = some s1 →
        fetchB (categoryStart slug) = some s1 →
        (scrape_category_run fetchA now slug maxp).1
          = (scrape_category_run fetchB now slug maxp).1) := by
  constructor
  · intro fetch now query maxp
    exact searchGo_stop fetch now maxp (searchStart query)
  · intro fA fB now slug maxp s1 hA hB
    unfold scrape_category_run
    rw [hA, hB]

/-- Witness for C9: a search whose first page has no candidates stops at
once for a listed reason, and two category crawls differing only in what
later pages return visit the same URLs. -/
theorem c9_witness :
    (∃ last, (scrape_search_run c9fetch tNow "michelin" 5).1.getLast? = some last
        ∧ (c9fetch last = none
           ∨ ∃ s, c9fetch last = some s
               ∧ (parse_listing_page s tNow = [] ∨ get_next_page_url s = none)))
    ∧ (scrape_category_run c9catFetchA tNow "anvelope-moto" 3).1
        = (scrape_category_run c9catFetchB tNow "anvelope-moto" 3).1 := by
  constructor
  · exact (c9_crawl_termination.1 c9fetch tNow "michelin" 5).2.2.1 (by decide)
  · exact c9_crawl_termination.2 c9catFetchA c9catFetchB tNow "anvelope-moto" 3 c6page rfl rfl
